import Mathlib

/-!
Verification development for the saved-repository warm-pool subsystem:
the durable repo registry (`openhands/storage/repos/file_repos_store.py`,
`openhands/storage/data_models/saved_repo.py`), the conversation pool
manager (`openhands/server/conversation_pool_manager.py`), and the HTTP
surface (`openhands/server/routes/saved_repos.py`,
`openhands/server/routes/github_webhook.py`).

Modelling conventions:
* Python `datetime` values are modelled as abstract `Nat` timestamps;
  `datetime.isoformat` is modelled as the decimal rendering of the
  timestamp and `datetime.fromisoformat` as the (partial) decimal parser,
  which preserves exactly what the source relies on: the encoding is
  injective, round-trips, and parsing rejects malformed strings.
* JSON documents are modelled by the inductive `Json`; Python `dict.get`
  and subscripting are modelled by association-list lookup, and a Python
  exception is modelled by `Except.error`.
* The store's dynamically typed fields are embedded at the types declared
  by the dataclasses; a JSON value of a different shape than the dataclass
  field's type is treated as a malformed entry.
-/

namespace AgentRepo

instance {ε α : Type} [DecidableEq ε] [DecidableEq α] : DecidableEq (Except ε α) :=
  fun a b =>
    match a, b with
    | .ok x, .ok y =>
      if h : x = y then .isTrue (by rw [h]) else .isFalse (by simp [h])
    | .error x, .error y =>
      if h : x = y then .isTrue (by rw [h]) else .isFalse (by simp [h])
    | .ok _, .error _ => .isFalse (by simp)
    | .error _, .ok _ => .isFalse (by simp)

/-! ## Character-list string primitives

Structural-recursion replacements for `String` library loops (which are
defined by well-founded recursion over byte positions and do not reduce),
used to model Python `str` operations faithfully and executably. -/

/-- Decimal numeral reader: `some n` when the char list is a nonempty list of
decimal digits denoting `n`; models `datetime.fromisoformat` acceptance on
our abstract timestamp rendering. -/
def parseDigits : List Char → Option Nat → Option Nat
  | [], acc => acc
  | c :: rest, acc =>
    if c.isDigit then
      parseDigits rest (some ((acc.getD 0) * 10 + (c.toNat - '0'.toNat)))
    else none

/-- Parse an abstract ISO-8601 timestamp back to a `Nat`; fails on strings
that are not a plain decimal numeral (modelling `fromisoformat` raising
`ValueError` on malformed input). -/
def fromIso (s : String) : Option Nat :=
  parseDigits s.data none

/-- Render an abstract timestamp; models `datetime.isoformat`. -/
def isoformat (t : Nat) : String :=
  toString t

/-- Worker for `removeAll`: while `skip > 0`, discard characters (the tail
of an occurrence already matched); at `skip = 0`, test for an occurrence
of `pat` at the current position. Structural recursion on the character
list so that concrete instances evaluate. -/
def removeAllGo (pat : List Char) : List Char → Nat → List Char
  | [], _ => []
  | _ :: rest, skip + 1 => removeAllGo pat rest skip
  | c :: rest, 0 =>
    if pat ≠ [] ∧ pat.isPrefixOf (c :: rest) then
      removeAllGo pat rest (pat.length - 1)
    else
      c :: removeAllGo pat rest 0

/-- Remove every leftmost non-overlapping occurrence of `pat` from the
list (the `replacement = ''` case of Python `str.replace`). -/
def removeAll (pat s : List Char) : List Char :=
  removeAllGo pat s 0

/-- `sub` occurs as a contiguous substring of `s`; models Python `in` on
strings. -/
def containsSubstr (s sub : List Char) : Bool :=
  match s with
  | [] => sub.isEmpty
  | _ :: rest => sub.isPrefixOf s || containsSubstr rest sub

/-! ## Data model (`openhands/storage/data_models/saved_repo.py`) -/

/-- Modelled from the spec: `ProviderType` (from
`openhands.integrations.service_types`, not part of this repository's
sources) is "a tagged variant over the supported providers (initially
`github`)"; constructing it from an unknown string tag raises. -/
inductive ProviderType where
  | github
  | gitlab
  | bitbucket
  deriving DecidableEq, Repr

/-- The string tag of a provider (`ProviderType.value` in the source). -/
def ProviderType.value : ProviderType → String
  | .github => "github"
  | .gitlab => "gitlab"
  | .bitbucket => "bitbucket"

/-- Modelled from the spec: `ProviderType(s)` succeeds exactly on the
string tags of the variants and raises `ValueError` otherwise. -/
def ProviderType.ofString? (s : String) : Option ProviderType :=
  if s = "github" then some .github
  else if s = "gitlab" then some .gitlab
  else if s = "bitbucket" then some .bitbucket
  else none

/-- One pool slot (`PrewarmedConversation` dataclass). -/
structure PrewarmedConversation where
  conversation_id : String
  status : String := "pending"
  created_at : Nat
  error_message : Option String := none
  warming_step : Option String := none
  deriving DecidableEq, Repr

/-- A saved repository (`SavedRepository` dataclass). -/
structure SavedRepository where
  repo_full_name : String
  branch : String := "main"
  git_provider : ProviderType
  added_at : Nat
  last_commit_sha : Option String := none
  pool_size : Int := 2
  prewarmed_conversations : List PrewarmedConversation := []
  prewarmed_conversation_id : Option String := none
  prewarmed_status : String := "pending"
  deriving DecidableEq, Repr

/-- `SavedRepository.get_ready_conversations`. -/
def getReadyConversations (repo : SavedRepository) : List PrewarmedConversation :=
  repo.prewarmed_conversations.filter (fun c => c.status == "ready")

/-- `SavedRepository.get_warming_count`. -/
def getWarmingCount (repo : SavedRepository) : Nat :=
  (repo.prewarmed_conversations.filter (fun c => c.status == "warming")).length

/-- The count of conversations with `status` in `{'ready', 'warming'}`. -/
def activeCount (repo : SavedRepository) : Nat :=
  (repo.prewarmed_conversations.filter
    (fun c => c.status == "ready" || c.status == "warming")).length

/-- `SavedRepository.needs_more_conversations`. -/
def needsMoreConversations (repo : SavedRepository) : Bool :=
  (activeCount repo : Int) < repo.pool_size

/-! ## JSON model -/

/-- JSON values, as produced by `json.loads`. -/
inductive Json where
  | null
  | str (s : String)
  | num (n : Int)
  | bool (b : Bool)
  | arr (elems : List Json)
  | obj (fields : List (String × Json))

/-- Association-list field lookup; models `dict.get(key)` / `dict[key]`
presence on a parsed JSON object. -/
def getField (kvs : List (String × Json)) (key : String) : Option Json :=
  match kvs with
  | [] => none
  | (k, v) :: rest => if k == key then some v else getField rest key

/-- Encode an optional string as a JSON value (`None` becomes `null`). -/
def optStrJson : Option String → Json
  | none => Json.null
  | some s => Json.str s

/-! ## File store serialization (`openhands/storage/repos/file_repos_store.py`) -/

/-- `FileReposStore._prewarmed_conv_to_dict`. The dictionary carries
exactly the keys written by the source: `conversation_id`, `status`,
`created_at`, `error_message` — and no `warming_step` key. `created_at`
is a `datetime` (always truthy in Python), so the `isoformat` branch is
always taken. -/
def prewarmedConvToDict (conv : PrewarmedConversation) : Json :=
  Json.obj [
    ("conversation_id", Json.str conv.conversation_id),
    ("status", Json.str conv.status),
    ("created_at", Json.str (isoformat conv.created_at)),
    ("error_message", optStrJson conv.error_message)
  ]

/-- `FileReposStore._dict_to_prewarmed_conv`. `now` stands for
`datetime.now(timezone.utc)`. A Python exception (subscript on a
non-dict, missing `conversation_id` key, `fromisoformat` failure) is an
`Except.error`. -/
def dictToPrewarmedConv (now : Nat) (j : Json) : Except String PrewarmedConversation := do
  let Json.obj kvs := j | throw "TypeError: not a dict"
  -- created_at := data.get('created_at'); truthy-and-str guard: the empty
  -- string is falsy in Python, so it also falls back to now.
  let created_at ←
    match getField kvs "created_at" with
    | some (Json.str s) =>
      if s = "" then pure now
      else
        match fromIso s with
        | some t => pure t
        | none => throw "ValueError: fromisoformat"
    | _ => pure now
  let conversation_id ←
    match getField kvs "conversation_id" with
    | some (Json.str s) => pure s
    | some _ => throw "TypeError: conversation_id"
    | none => throw "KeyError: conversation_id"
  let status ←
    match getField kvs "status" with
    | none => pure "pending"
    | some (Json.str s) => pure s
    | some _ => throw "TypeError: status"
  let error_message ←
    match getField kvs "error_message" with
    | none => pure none
    | some Json.null => pure none
    | some (Json.str s) => pure (some s)
    | some _ => throw "TypeError: error_message"
  pure { conversation_id := conversation_id, status := status,
         created_at := created_at, error_message := error_message,
         warming_step := none }

/-- `FileReposStore._repo_to_dict`. `git_provider` is typed
`ProviderType` in the data model, so the `isinstance` branch always takes
`.value`; `added_at` is a `datetime` and always truthy. -/
def repoToDict (repo : SavedRepository) : Json :=
  Json.obj [
    ("repo_full_name", Json.str repo.repo_full_name),
    ("branch", Json.str repo.branch),
    ("git_provider", Json.str repo.git_provider.value),
    ("added_at", Json.str (isoformat repo.added_at)),
    ("last_commit_sha", optStrJson repo.last_commit_sha),
    ("pool_size", Json.num repo.pool_size),
    ("prewarmed_conversations",
      Json.arr (repo.prewarmed_conversations.map prewarmedConvToDict)),
    ("prewarmed_conversation_id", optStrJson repo.prewarmed_conversation_id),
    ("prewarmed_status", Json.str repo.prewarmed_status)
  ]

/-- `FileReposStore._dict_to_repo`. Each per-conversation parse failure is
skipped (the inner `try`/`except` of the source); a failure outside that
loop propagates as `Except.error`. Iterating a JSON string or object in
the `prewarmed_conversations` position yields characters or keys, each of
which fails the per-item parse and is skipped, so those cases produce the
empty pool, while non-iterable values (`null`, numbers, booleans) raise. -/
def dictToRepo (now : Nat) (j : Json) : Except String SavedRepository := do
  let Json.obj kvs := j | throw "TypeError: not a dict"
  let added_at ←
    match getField kvs "added_at" with
    | some (Json.str s) =>
      if s = "" then pure now
      else
        match fromIso s with
        | some t => pure t
        | none => throw "ValueError: fromisoformat"
    | _ => pure now
  let git_provider ←
    match getField kvs "git_provider" with
    | none => pure ProviderType.github
    | some (Json.str s) =>
      match ProviderType.ofString? s with
      | some p => pure p
      | none => throw "ValueError: git_provider"
    | some _ => throw "TypeError: git_provider"
  let prewarmed_conversations ←
    match getField kvs "prewarmed_conversations" with
    | none => pure []
    | some (Json.arr xs) =>
      pure (xs.filterMap (fun x => (dictToPrewarmedConv now x).toOption))
    | some (Json.str _) => pure []
    | some (Json.obj _) => pure []
    | some _ => throw "TypeError: not iterable"
  let repo_full_name ←
    match getField kvs "repo_full_name" with
    | some (Json.str s) => pure s
    | some _ => throw "TypeError: repo_full_name"
    | none => throw "KeyError: repo_full_name"
  let branch ←
    match getField kvs "branch" with
    | none => pure "main"
    | some (Json.str s) => pure s
    | some _ => throw "TypeError: branch"
  let last_commit_sha ←
    match getField kvs "last_commit_sha" with
    | none => pure none
    | some Json.null => pure none
    | some (Json.str s) => pure (some s)
    | some _ => throw "TypeError: last_commit_sha"
  let pool_size ←
    match getField kvs "pool_size" with
    | none => pure (2 : Int)
    | some (Json.num n) => pure n
    | some _ => throw "TypeError: pool_size"
  let prewarmed_conversation_id ←
    match getField kvs "prewarmed_conversation_id" with
    | none => pure none
    | some Json.null => pure none
    | some (Json.str s) => pure (some s)
    | some _ => throw "TypeError: prewarmed_conversation_id"
  let prewarmed_status ←
    match getField kvs "prewarmed_status" with
    | none => pure "pending"
    | some (Json.str s) => pure s
    | some _ => throw "TypeError: prewarmed_status"
  pure { repo_full_name := repo_full_name, branch := branch,
         git_provider := git_provider, added_at := added_at,
         last_commit_sha := last_commit_sha, pool_size := pool_size,
         prewarmed_conversations := prewarmed_conversations,
         prewarmed_conversation_id := prewarmed_conversation_id,
         prewarmed_status := prewarmed_status }

/-- The state of the backing file as seen by `load_all`. -/
inductive StoreFile where
  | missing
  | malformed
  | json (j : Json)

/-- `FileReposStore.load_all`. A missing file yields `[]`; an unreadable
or unparseable file is caught by the outer handler and yields `[]`; a
parsed document yields the well-formed entries of its `repositories`
array, skipping entries whose parse raises. A `repositories` value that
is not an array makes the `for` loop raise (`TypeError`), which the outer
handler turns into `[]` — except strings and objects, which iterate to
characters or keys that each fail the entry parse, again yielding `[]`. -/
def loadAll (now : Nat) (f : StoreFile) : List SavedRepository :=
  match f with
  | .missing => []
  | .malformed => []
  | .json j =>
    match j with
    | Json.obj kvs =>
      match getField kvs "repositories" with
      | none => []
      | some (Json.arr xs) => xs.filterMap (fun x => (dictToRepo now x).toOption)
      | some _ => []
    | _ => []

/-- `FileReposStore.save_all`: the persisted document. -/
def saveAll (repos : List SavedRepository) : StoreFile :=
  .json (Json.obj [("repositories", Json.arr (repos.map repoToDict))])

/-! ## Registry operations on the repository list

`load_all`/`save_all` bracket every store operation; between them the
operations below manipulate the loaded list, and these pure functions are
the list manipulations of the source. -/

/-- `FileReposStore.get_repo`: first entry with the given full name. -/
def findRepo (repos : List SavedRepository) (name : String) : Option SavedRepository :=
  repos.find? (fun r => r.repo_full_name == name)

/-- `FileReposStore.update_repo`: replace the first entry whose
`repo_full_name` equals the argument's; second component is the returned
`bool` (`false` when no entry matched, in which case nothing is saved). -/
def updateRepoList (repos : List SavedRepository) (repo : SavedRepository) :
    List SavedRepository × Bool :=
  match repos with
  | [] => ([], false)
  | r :: rest =>
    if r.repo_full_name == repo.repo_full_name then (repo :: rest, true)
    else
      let (rest', found) := updateRepoList rest repo
      (r :: rest', found)

/-- `FileReposStore.add_repo`: upsert keyed by `repo_full_name`. On a
match only `branch`, `git_provider` and `pool_size` of the existing entry
are overwritten and the scan stops; otherwise the repo is appended. -/
def addRepoList (repos : List SavedRepository) (repo : SavedRepository) :
    List SavedRepository :=
  match repos with
  | [] => [repo]
  | r :: rest =>
    if r.repo_full_name == repo.repo_full_name then
      { r with branch := repo.branch, git_provider := repo.git_provider,
               pool_size := repo.pool_size } :: rest
    else r :: addRepoList rest repo

/-- `FileReposStore.remove_repo`: drop all entries with the given name;
second component is whether anything was removed. -/
def removeRepoList (repos : List SavedRepository) (name : String) :
    List SavedRepository × Bool :=
  let kept := repos.filter (fun r => r.repo_full_name != name)
  (kept, kept.length < repos.length)

/-! ## Pool manager (`openhands/server/conversation_pool_manager.py`) -/

/-- The fresh pool entry appended by `_ensure_pool_filled`:
`PrewarmedConversation(conversation_id=conv_id, status='warming',
created_at=now, warming_step='queued')`. -/
def mkWarmingConv (cid : String) (now : Nat) : PrewarmedConversation :=
  { conversation_id := cid, status := "warming", created_at := now,
    error_message := none, warming_step := some "queued" }

/-- The `while repo.needs_more_conversations()` loop body of
`_ensure_pool_filled`, acting on the repo record it re-reads each
iteration; `ids k` is the `uuid4().hex` drawn at iteration `k`. -/
def fillLoop (ids : Nat → String) (now : Nat) (k : Nat) (repo : SavedRepository) :
    SavedRepository :=
  if needsMoreConversations repo then
    fillLoop ids now (k + 1)
      { repo with prewarmed_conversations :=
          repo.prewarmed_conversations ++ [mkWarmingConv (ids k) now] }
  else repo
termination_by (repo.pool_size - (activeCount repo : Int)).toNat
decreasing_by
  rename_i h
  simp only [needsMoreConversations, decide_eq_true_eq] at h
  have hstep : activeCount { repo with prewarmed_conversations :=
      repo.prewarmed_conversations ++ [mkWarmingConv (ids k) now] } =
      activeCount repo + 1 := by
    simp [activeCount, mkWarmingConv, List.filter_append]
  simp only [hstep]
  omega

/-- `ConversationPoolManager._ensure_pool_filled` on the registry: locate
the repo (a missing repo is a no-op) and run the fill loop, persisting the
grown record. -/
def ensurePoolFilled (ids : Nat → String) (now : Nat)
    (repos : List SavedRepository) (name : String) : List SavedRepository :=
  match findRepo repos name with
  | none => repos
  | some repo => (updateRepoList repos (fillLoop ids now 0 repo)).1

/-- The per-conversation mutation of
`ConversationPoolManager._update_conversation_status`: the `for`/`break`
loop updates the first entry with the claimed id, assigning `status` and
`error_message` unconditionally and `warming_step` only when one was
passed. -/
def updateFirstConv (cid status : String) (em ws : Option String) :
    List PrewarmedConversation → List PrewarmedConversation
  | [] => []
  | c :: rest =>
    if c.conversation_id == cid then
      { c with status := status, error_message := em,
               warming_step := match ws with
                 | some w => some w
                 | none => c.warming_step } :: rest
    else c :: updateFirstConv cid status em ws rest

/-- `ConversationPoolManager._update_conversation_status` on the registry:
re-read the repo, mutate the matching conversation (if any), and persist
the record. -/
def updateConversationStatus (repos : List SavedRepository) (name cid status : String)
    (em ws : Option String) : List SavedRepository :=
  match findRepo repos name with
  | none => repos
  | some repo =>
    (updateRepoList repos
      { repo with prewarmed_conversations :=
          updateFirstConv cid status em ws repo.prewarmed_conversations }).1

/-- `ConversationPoolManager.claim_conversation`, up to the end of its
locked section: the claimed id (or `none`) and the persisted registry.
The detached refill task scheduled after the lock is released is
`ensurePoolFilled` and is modelled separately. -/
def claimConversation (repos : List SavedRepository) (name : String) :
    Option String × List SavedRepository :=
  match findRepo repos name with
  | none => (none, repos)
  | some repo =>
    match getReadyConversations repo with
    | [] => (none, repos)
    | claimed :: _ =>
      let cid := claimed.conversation_id
      let repo' := { repo with prewarmed_conversations :=
        repo.prewarmed_conversations.filter (fun c => c.conversation_id != cid) }
      (some cid, (updateRepoList repos repo').1)

/-- The locked section of `ConversationPoolManager.invalidate_for_repo`:
clear the repo's pool and persist. (The subsequent `prewarm_for_repo`
call is `ensurePoolFilled`.) -/
def invalidateClear (repos : List SavedRepository) (name : String) :
    List SavedRepository :=
  match findRepo repos name with
  | none => repos
  | some repo =>
    (updateRepoList repos { repo with prewarmed_conversations := [] }).1

/-- `invalidate_for_repo` in full: clear, then refill. -/
def invalidateForRepo (ids : Nat → String) (now : Nat)
    (repos : List SavedRepository) (name : String) : List SavedRepository :=
  ensurePoolFilled ids now (invalidateClear repos name) name

/-! ## Warmer (`_warm_conversation` and `_wait_for_runtime_ready`) -/

/-- The settings-category test of `_warm_conversation`:
`'Settings not found' in error_msg or 'LLM' in error_msg or
'API key' in error_msg`. -/
def isSettingsError (msg : String) : Bool :=
  containsSubstr msg.data "Settings not found".data ||
  containsSubstr msg.data "LLM".data ||
  containsSubstr msg.data "API key".data

/-- What one iteration of `_wait_for_runtime_ready` observes about the
session bound to the conversation. `noSession` also covers a session
without an agent session (neither writes a step). `after10` is the
`elapsed > 10` guard of the no-runtime branch. -/
inductive PollObs where
  | noSession
  | sessionNoRuntime (after10 : Bool)
  | runtimeNoController
  | agentLoading
  | agentReady
  deriving DecidableEq, Repr

/-- The `warming_step` writes of `_wait_for_runtime_ready`'s polling loop
on a sequence of observations, starting from `last_step` (initially
`'cloning_repo'`), with the `Bool` telling whether the loop returned
because the agent left `LOADING` (an exhausted observation list models
the 600 s deadline firing, i.e. `TimeoutError`). -/
def waitEmits (last : String) : List PollObs → List String × Bool
  | [] => ([], false)
  | o :: rest =>
    match o with
    | .agentReady => ([], true)
    | .noSession => waitEmits last rest
    | .agentLoading =>
      if last != "starting_agent" then
        ("starting_agent" :: (waitEmits "starting_agent" rest).1,
         (waitEmits "starting_agent" rest).2)
      else waitEmits last rest
    | .runtimeNoController =>
      if last != "building_runtime" then
        ("building_runtime" :: (waitEmits "building_runtime" rest).1,
         (waitEmits "building_runtime" rest).2)
      else waitEmits last rest
    | .sessionNoRuntime after10 =>
      if last != "cloning_repo" && after10 then
        ("cloning_repo" :: (waitEmits "cloning_repo" rest).1,
         (waitEmits "cloning_repo" rest).2)
      else waitEmits last rest

/-- Outcome of an external call the Warmer awaits. -/
inductive CallOutcome where
  | ok
  | raised (msg : String)
  deriving DecidableEq, Repr

/-- The environment one `_warm_conversation` run interacts with:
whether `get_repo` finds the repo, whether stored credentials carry
provider tokens, the outcome of `create_new_conversation`, the runtime
observations consumed by the readiness poll, and the outcome of
`initialize_conversation` on the metadata-only path. -/
structure WarmEnv where
  repoFound : Bool
  hasTokens : Bool
  factory : CallOutcome
  poll : List PollObs
  metadata : CallOutcome

/-- One `_update_conversation_status` call:
(status, error_message, warming_step as passed). -/
structure StatusUpdate where
  status : String
  error_message : Option String
  warming_step : Option String
  deriving DecidableEq, Repr

/-- The updates recorded by `_warm_conversation_metadata_only`
(followed by the outer handler of `_warm_conversation` when
`initialize_conversation` raises). -/
def metadataUpdates : CallOutcome → List StatusUpdate
  | .ok =>
    [⟨"warming", none, some "creating_metadata"⟩,
     ⟨"ready", none, some "ready"⟩]
  | .raised msg =>
    [⟨"warming", none, some "creating_metadata"⟩,
     ⟨"error", some msg, some "error"⟩]

/-- Every `_update_conversation_status` call made on behalf of one
conversation, in order: the `'queued'` step recorded at creation by
`_ensure_pool_filled`, then the updates of `_warm_conversation`
(including those of the readiness poll and of the metadata-only
fallback). An exhausted poll raises `TimeoutError`, whose message
(`'Runtime <hex id> did not become ready within 600s'`) never matches the
settings-error substrings, so it takes the error branch. -/
def warmUpdates (env : WarmEnv) : List StatusUpdate :=
  ⟨"warming", none, some "queued"⟩ ::
  ⟨"warming", none, some "initializing"⟩ ::
  if !env.repoFound then
    [⟨"error", some "Repository not found", some "error"⟩]
  else if !env.hasTokens then
    metadataUpdates env.metadata
  else
    ⟨"warming", none, some "cloning_repo"⟩ ::
    match env.factory with
    | .raised msg =>
      if isSettingsError msg then metadataUpdates env.metadata
      else [⟨"error", some msg, some "error"⟩]
    | .ok =>
      let (emits, reached) := waitEmits "cloning_repo" env.poll
      (emits.map (fun s => ⟨"warming", none, some s⟩)) ++
      (if reached then [⟨"ready", none, some "ready"⟩]
       else [⟨"error",
              some ("Runtime did not become ready within 600s"),
              some "error"⟩])

/-- The last status update recorded for the conversation. -/
def warmFinal (env : WarmEnv) : Option StatusUpdate :=
  (warmUpdates env).getLast?

/-! ## Warming-step order -/

/-- Rank of a warming step in the order
`queued < initializing < (creating_metadata | cloning_repo) <
building_runtime < starting_agent < ready`; the terminal `error` step sits
above every ordinary step. -/
def stepRank (s : String) : Nat :=
  if s = "queued" then 0
  else if s = "initializing" then 1
  else if s = "creating_metadata" then 2
  else if s = "cloning_repo" then 2
  else if s = "building_runtime" then 3
  else if s = "starting_agent" then 4
  else if s = "ready" then 5
  else 6

/-- The warming steps recorded for one conversation, in write order. -/
def warmSteps (env : WarmEnv) : List String :=
  (warmUpdates env).filterMap (fun u => u.warming_step)

/-- A recorded step sequence never shows an earlier step after a later
one. -/
def StepsMonotone (l : List String) : Prop :=
  l.Chain' (fun a b => stepRank a ≤ stepRank b)

/-- How far the readiness gates of `_wait_for_runtime_ready` have been
passed in one observation: no runtime yet (0), runtime initialized but no
controller (1), controller present but agent still LOADING (2), agent
past LOADING (3). `noSession` carries no gate information. -/
def obsLevel : PollObs → Option Nat
  | .noSession => none
  | .sessionNoRuntime _ => some 0
  | .runtimeNoController => some 1
  | .agentLoading => some 2
  | .agentReady => some 3

/-- The runtime observations of a poll never regress: each gate, once
passed, stays passed. -/
def ObsMonotone (obs : List PollObs) : Prop :=
  (obs.filterMap obsLevel).Chain' (· ≤ ·)


/-! ## GitHub webhook push handler
(`openhands/server/routes/github_webhook.py`, `_handle_push_event`) -/

/-- The branch computed by `_handle_push_event`:
`ref.replace('refs/heads/', '') if ref.startswith('refs/heads/') else ref`.
Python `str.replace` with no count removes every leftmost non-overlapping
occurrence of the pattern, not only the leading one. -/
def extractBranch (ref : String) : String :=
  if "refs/heads/".data.isPrefixOf ref.data then
    String.mk (removeAll "refs/heads/".data ref.data)
  else ref

/-- The branch as the specification words it: the ref with the leading
`refs/heads/` removed (comparison definition following the claim's text,
not the source). -/
def branchBySpec (ref : String) : String :=
  if "refs/heads/".data.isPrefixOf ref.data then
    String.mk (ref.data.drop "refs/heads/".data.length)
  else ref

/-- The fields of a push payload the handler reads. `repo_full_name` is
`payload.get('repository', {}).get('full_name', '')` (so `""` when
absent); `head_commit` is `none` when `payload.get('head_commit', {})` is
falsy (absent, `null`, or the empty object) and otherwise carries
`head_commit.get('id')`. -/
structure PushPayload where
  repo_full_name : String
  ref : String
  head_commit : Option (Option String)

/-- The 200-response families `_handle_push_event` returns. -/
inductive PushOutcome where
  | missingRepoName
  | untracked
  | wrongBranch
  | invalidated
  deriving DecidableEq, Repr

/-- `_handle_push_event`: the response kind (every kind is an HTTP 200),
the registry as persisted by the handler itself, and whether
`invalidate_for_repo` was invoked (its own effects are modelled by
`invalidateForRepo`). -/
def handlePushEvent (repos : List SavedRepository) (p : PushPayload) :
    PushOutcome × List SavedRepository × Bool :=
  if p.repo_full_name == "" then (.missingRepoName, repos, false)
  else
    match findRepo repos p.repo_full_name with
    | none => (.untracked, repos, false)
    | some repo =>
      let branch := extractBranch p.ref
      if repo.branch != branch then (.wrongBranch, repos, false)
      else
        let repos' :=
          match p.head_commit with
          | some sha => (updateRepoList repos { repo with last_commit_sha := sha }).1
          | none => repos
        (.invalidated, repos', true)

/-! ## Saved-repo routes (`openhands/server/routes/saved_repos.py`) -/

/-- `AddRepoRequest` body. -/
structure AddRepoRequest where
  repo_full_name : String
  branch : String := "main"
  git_provider : String := "github"
  pool_size : Int := 2

/-- `UpdateRepoRequest` body. -/
structure UpdateRepoRequest where
  branch : Option String := none
  last_commit_sha : Option String := none
  pool_size : Option Int := none

/-- `add_saved_repo` up to the store write: validates the provider tag
and `1 ≤ pool_size ≤ 10`, rejecting with HTTP 400 before anything is
stored, then upserts the fresh record (empty pool, no commit sha). The
subsequent `prewarm_for_repo` trigger is `ensurePoolFilled`, modelled
separately. -/
def addSavedRepo (now : Nat) (repos : List SavedRepository) (req : AddRepoRequest) :
    Except Nat (List SavedRepository) :=
  match ProviderType.ofString? req.git_provider with
  | none => .error 400
  | some gp =>
    if req.pool_size < 1 || req.pool_size > 10 then .error 400
    else
      .ok (addRepoList repos
        { repo_full_name := req.repo_full_name, branch := req.branch,
          git_provider := gp, added_at := now, last_commit_sha := none,
          pool_size := req.pool_size, prewarmed_conversations := [] })

/-- `update_saved_repo`: 404 when the repo is missing; each provided
field overwrites the loaded record, with `pool_size` validated against
`[1, 10]` (HTTP 400) before `update_repo` persists anything. -/
def updateSavedRepo (repos : List SavedRepository) (name : String)
    (req : UpdateRepoRequest) : Except Nat (List SavedRepository) :=
  match findRepo repos name with
  | none => .error 404
  | some repo =>
    let repo1 := match req.branch with
      | some b => { repo with branch := b }
      | none => repo
    let repo2 := match req.last_commit_sha with
      | some s => { repo1 with last_commit_sha := some s }
      | none => repo1
    match req.pool_size with
    | some p =>
      if p < 1 || p > 10 then .error 400
      else .ok (updateRepoList repos { repo2 with pool_size := p }).1
    | none => .ok (updateRepoList repos repo2).1

/-! ## Concrete example values (used by counterexamples and witnesses) -/

/-- A pool entry carrying a warming step, as `_ensure_pool_filled` creates
them. -/
def convWithStep : PrewarmedConversation :=
  { conversation_id := "abc123", status := "warming", created_at := 5,
    error_message := none, warming_step := some "queued" }

/-- A ready pool entry. -/
def convReadyA : PrewarmedConversation :=
  { conversation_id := "aaa", status := "ready", created_at := 1,
    error_message := none, warming_step := some "ready" }

/-- A second, younger ready pool entry. -/
def convReadyB : PrewarmedConversation :=
  { conversation_id := "bbb", status := "ready", created_at := 2,
    error_message := none, warming_step := some "ready" }

/-- A warming pool entry. -/
def convWarming : PrewarmedConversation :=
  { conversation_id := "ccc", status := "warming", created_at := 3,
    error_message := none, warming_step := some "initializing" }

/-- A saved repository with a warming entry that carries a step. -/
def repoWithStep : SavedRepository :=
  { repo_full_name := "acme/widget", branch := "main",
    git_provider := .github, added_at := 4, last_commit_sha := some "deadbeef",
    pool_size := 2, prewarmed_conversations := [convWithStep],
    prewarmed_conversation_id := none, prewarmed_status := "pending" }

/-- A saved repository with a claimable pool: one warming entry in front
of two ready ones. -/
def repoPool : SavedRepository :=
  { repo_full_name := "acme/widget", branch := "main",
    git_provider := .github, added_at := 4, last_commit_sha := none,
    pool_size := 2,
    prewarmed_conversations := [convWarming, convReadyA, convReadyB],
    prewarmed_conversation_id := none, prewarmed_status := "pending" }

/-- A repository whose pool satisfies the sizing invariant: two active
entries (one ready, one warming) against `pool_size = 2`. -/
def repoBounded : SavedRepository :=
  { repo_full_name := "acme/widget", branch := "main",
    git_provider := .github, added_at := 4, last_commit_sha := none,
    pool_size := 2, prewarmed_conversations := [convReadyA, convWarming],
    prewarmed_conversation_id := none, prewarmed_status := "pending" }

/-- A second tracked repository, untouched by the operations under test. -/
def repoOther : SavedRepository :=
  { repo_full_name := "acme/gadget", branch := "dev",
    git_provider := .gitlab, added_at := 9, last_commit_sha := none,
    pool_size := 1, prewarmed_conversations := [],
    prewarmed_conversation_id := none, prewarmed_status := "pending" }

/-- A warmer environment whose readiness poll watches the runtime
observation regress (runtime seen initialized, then gone again past the
10-second mark) before the agent becomes ready. -/
def envRegress : WarmEnv :=
  { repoFound := true, hasTokens := true, factory := .ok,
    poll := [.runtimeNoController, .sessionNoRuntime true, .agentReady],
    metadata := .ok }

/-- A warmer environment whose readiness poll watches the gates pass in
order and never regress. -/
def envSteady : WarmEnv :=
  { repoFound := true, hasTokens := true, factory := .ok,
    poll := [.sessionNoRuntime true, .runtimeNoController, .noSession,
             .agentLoading, .agentReady],
    metadata := .ok }

/-! ## Helper lemmas -/

theorem findRepo_name_eq {repos : List SavedRepository} {name : String}
    {repo : SavedRepository} (h : findRepo repos name = some repo) :
    repo.repo_full_name = name := by
  have := List.find?_some h
  simpa [beq_iff_eq] using this

theorem findRepo_mem {repos : List SavedRepository} {name : String}
    {repo : SavedRepository} (h : findRepo repos name = some repo) :
    repo ∈ repos :=
  List.mem_of_find?_eq_some h

/-- `get_repo` locates the first entry with the given name, and
`update_repo` with a record of that same name replaces exactly that
entry. -/
theorem findRepo_updateRepoList {repos : List SavedRepository} {name : String}
    {repo : SavedRepository} (repo' : SavedRepository)
    (h : findRepo repos name = some repo) (h' : repo'.repo_full_name = name) :
    ∃ l1 l2, repos = l1 ++ repo :: l2 ∧ (∀ x ∈ l1, x.repo_full_name ≠ name) ∧
      (updateRepoList repos repo').1 = l1 ++ repo' :: l2 := by
  induction repos with
  | nil => simp [findRepo] at h
  | cons r rest ih =>
    by_cases hr : r.repo_full_name = name
    · have hbeq : (r.repo_full_name == name) = true := by simpa [beq_iff_eq] using hr
      have hfind : findRepo (r :: rest) name = some r := by
        simp [findRepo, List.find?_cons_of_pos, hbeq]
      rw [hfind] at h
      obtain rfl : r = repo := by injection h
      refine ⟨[], rest, by simp, by simp, ?_⟩
      have : (r.repo_full_name == repo'.repo_full_name) = true := by
        simp [beq_iff_eq, hr, h'.symm]
      simp [updateRepoList, this]
    · have hbeq : (r.repo_full_name == name) = false := by
        simpa [beq_eq_false_iff_ne] using hr
      have hfind : findRepo (r :: rest) name = findRepo rest name := by
        simp [findRepo, List.find?_cons_of_neg, hbeq]
      rw [hfind] at h
      obtain ⟨l1, l2, hsplit, hl1, hupd⟩ := ih h
      refine ⟨r :: l1, l2, by simp [hsplit], ?_, ?_⟩
      · intro x hx
        rcases List.mem_cons.mp hx with rfl | hx
        · exact hr
        · exact hl1 x hx
      · have : (r.repo_full_name == repo'.repo_full_name) = false := by
          rw [h'] at *
          exact hbeq
        simp [updateRepoList, this, hupd]

/-- A status update whose conversation id matches no entry leaves the
conversation list untouched. -/
theorem updateFirstConv_of_not_mem {cid status : String} {em ws : Option String}
    {l : List PrewarmedConversation} (h : ∀ c ∈ l, c.conversation_id ≠ cid) :
    updateFirstConv cid status em ws l = l := by
  induction l with
  | nil => rfl
  | cons c rest ih =>
    have hc : (c.conversation_id == cid) = false := by
      simpa [beq_eq_false_iff_ne] using h c (by simp)
    simp only [updateFirstConv, hc]
    simp [ih (fun x hx => h x (by simp [hx]))]

/-! ## Claims -/

/-- C1: for every `SavedRepository` (including embedded
`PrewarmedConversation` entries with any status, error message and
warming step), serializing with `_repo_to_dict` / `_prewarmed_conv_to_dict`
and parsing back with `_dict_to_repo` / `_dict_to_prewarmed_conv` is
claimed to restore the original value with no field lost. The code
violates this: `_prewarmed_conv_to_dict` writes no `warming_step` key and
`_dict_to_prewarmed_conv` never assigns the field, so the round-trip of an
entry carrying `warming_step = 'queued'` returns the entry with
`warming_step = None` — every other field survives, the step is erased.
The spec's persisted-state schema (§6) lists `warming_step` among the
persisted keys, so the claim reflects the intent and the code drops the
field: a code bug. -/
theorem claim_C1_roundtrip_drops_warming_step :
    dictToPrewarmedConv 0 (prewarmedConvToDict convWithStep) =
      .ok { convWithStep with warming_step := none } ∧
    dictToPrewarmedConv 0 (prewarmedConvToDict convWithStep) ≠ .ok convWithStep ∧
    dictToRepo 0 (repoToDict repoWithStep) =
      .ok { repoWithStep with
              prewarmed_conversations := [{ convWithStep with warming_step := none }] } ∧
    dictToRepo 0 (repoToDict repoWithStep) ≠ .ok repoWithStep := by
  refine ⟨by decide, by decide, by decide, by decide⟩

/-- C7: `add_repo` on a repository whose `repo_full_name` is already
present overwrites only `branch`, `git_provider` and `pool_size` of the
(first) existing entry, leaves its `prewarmed_conversations`, `added_at`,
`last_commit_sha` and legacy fields unchanged, keeps every other entry
as it was, and creates no duplicate (the list length is unchanged). -/
theorem claim_C7_add_repo_upsert (repos : List SavedRepository)
    (repo : SavedRepository)
    (h : ∃ r ∈ repos, r.repo_full_name = repo.repo_full_name) :
    ∃ l1 r0 l2,
      repos = l1 ++ r0 :: l2 ∧
      r0.repo_full_name = repo.repo_full_name ∧
      (∀ x ∈ l1, x.repo_full_name ≠ repo.repo_full_name) ∧
      addRepoList repos repo =
        l1 ++ { r0 with branch := repo.branch, git_provider := repo.git_provider,
                        pool_size := repo.pool_size } :: l2 ∧
      ({ r0 with branch := repo.branch, git_provider := repo.git_provider,
                 pool_size := repo.pool_size } : SavedRepository).prewarmed_conversations
        = r0.prewarmed_conversations ∧
      ({ r0 with branch := repo.branch, git_provider := repo.git_provider,
                 pool_size := repo.pool_size } : SavedRepository).added_at = r0.added_at ∧
      ({ r0 with branch := repo.branch, git_provider := repo.git_provider,
                 pool_size := repo.pool_size } : SavedRepository).last_commit_sha
        = r0.last_commit_sha ∧
      (addRepoList repos repo).length = repos.length := by
  induction repos with
  | nil => simp at h
  | cons r rest ih =>
    by_cases hr : r.repo_full_name = repo.repo_full_name
    · have hbeq : (r.repo_full_name == repo.repo_full_name) = true := by
        simpa [beq_iff_eq] using hr
      refine ⟨[], r, rest, by simp, hr, by simp, ?_, rfl, rfl, rfl, ?_⟩
      · simp [addRepoList, hbeq]
      · simp [addRepoList, hbeq]
    · have hbeq : (r.repo_full_name == repo.repo_full_name) = false := by
        simpa [beq_eq_false_iff_ne] using hr
      have h' : ∃ x ∈ rest, x.repo_full_name = repo.repo_full_name := by
        obtain ⟨x, hx, hxe⟩ := h
        rcases List.mem_cons.mp hx with rfl | hx
        · exact absurd hxe hr
        · exact ⟨x, hx, hxe⟩
      obtain ⟨l1, r0, l2, hsplit, hr0, hl1, hadd, _, _, _, hlen⟩ := ih h'
      refine ⟨r :: l1, r0, l2, by simp [hsplit], hr0, ?_, ?_, rfl, rfl, rfl, ?_⟩
      · intro x hx
        rcases List.mem_cons.mp hx with rfl | hx
        · exact hr
        · exact hl1 x hx
      · simp [addRepoList, hbeq, hadd]
      · simp [addRepoList, hbeq, hlen]

/-- C7 witness: upserting `acme/widget` into a registry that already has
it (followed by an unrelated repo) rewrites only the pool-configuration
fields of the existing entry. -/
theorem claim_C7_add_repo_upsert_witness :
    (∃ r ∈ [repoPool, repoOther],
      r.repo_full_name = (repoWithStep).repo_full_name) ∧
    ∃ l1 r0 l2,
      [repoPool, repoOther] = l1 ++ r0 :: l2 ∧
      r0.repo_full_name = (repoWithStep).repo_full_name ∧
      (∀ x ∈ l1, x.repo_full_name ≠ (repoWithStep).repo_full_name) ∧
      addRepoList [repoPool, repoOther] repoWithStep =
        l1 ++ { r0 with branch := repoWithStep.branch,
                        git_provider := repoWithStep.git_provider,
                        pool_size := repoWithStep.pool_size } :: l2 ∧
      ({ r0 with branch := repoWithStep.branch,
                 git_provider := repoWithStep.git_provider,
                 pool_size := repoWithStep.pool_size } : SavedRepository).prewarmed_conversations
        = r0.prewarmed_conversations ∧
      ({ r0 with branch := repoWithStep.branch,
                 git_provider := repoWithStep.git_provider,
                 pool_size := repoWithStep.pool_size } : SavedRepository).added_at = r0.added_at ∧
      ({ r0 with branch := repoWithStep.branch,
                 git_provider := repoWithStep.git_provider,
                 pool_size := repoWithStep.pool_size } : SavedRepository).last_commit_sha
        = r0.last_commit_sha ∧
      (addRepoList [repoPool, repoOther] repoWithStep).length =
        ([repoPool, repoOther] : List SavedRepository).length :=
  ⟨⟨repoPool, by decide⟩,
   claim_C7_add_repo_upsert [repoPool, repoOther] repoWithStep
     ⟨repoPool, by decide⟩⟩

/-- C10: a `_update_conversation_status` call whose conversation id occurs
in no entry of the addressed repo modifies nothing: the registry it
persists is equal to the one it read, so a late status update can neither
recreate a claimed/invalidated entry nor mark it `error`. -/
theorem claim_C10_update_status_frame (repos : List SavedRepository)
    (name cid status : String) (em ws : Option String)
    (h : ∀ r ∈ repos, r.repo_full_name = name →
          ∀ c ∈ r.prewarmed_conversations, c.conversation_id ≠ cid) :
    updateConversationStatus repos name cid status em ws = repos := by
  cases hf : findRepo repos name with
  | none => simp [updateConversationStatus, hf]
  | some repo =>
    have hname := findRepo_name_eq hf
    have hconv := h repo (findRepo_mem hf) hname
    have hid : updateFirstConv cid status em ws repo.prewarmed_conversations =
        repo.prewarmed_conversations := updateFirstConv_of_not_mem hconv
    obtain ⟨l1, l2, hsplit, _, hupd⟩ :=
      findRepo_updateRepoList
        ({ repo with prewarmed_conversations :=
            updateFirstConv cid status em ws repo.prewarmed_conversations })
        hf hname
    simp only [updateConversationStatus, hf]
    rw [hupd, hid, hsplit]

/-- C10 witness: updating a conversation id absent from `acme/widget`'s
pool (after it was claimed, say) leaves the two-repo registry exactly as
it was. -/
theorem claim_C10_update_status_frame_witness :
    updateConversationStatus [repoPool, repoOther] "acme/widget" "zzz"
      "error" (some "boom") (some "error") = [repoPool, repoOther] :=
  claim_C10_update_status_frame [repoPool, repoOther] "acme/widget" "zzz"
    "error" (some "boom") (some "error") (by decide)

/-- C6 counterexample: the claim says the branch is the ref with the
leading `refs/heads/` removed, but the handler uses Python `str.replace`,
which removes every occurrence. On `ref = 'refs/heads/refs/heads/main'`
(a push to a branch literally named `refs/heads/main`) the code computes
branch `main`, not `refs/heads/main`; against a repo tracking
`refs/heads/main` the handler therefore ignores a push that the claim's
branch rule would have it treat as matching and invalidate. -/
theorem claim_C6_counterexample :
    extractBranch "refs/heads/refs/heads/main" = "main" ∧
    branchBySpec "refs/heads/refs/heads/main" = "refs/heads/main" ∧
    extractBranch "refs/heads/refs/heads/main" ≠
      branchBySpec "refs/heads/refs/heads/main" ∧
    handlePushEvent
        [{ repoWithStep with branch := "refs/heads/main" }]
        { repo_full_name := "acme/widget",
          ref := "refs/heads/refs/heads/main",
          head_commit := some (some "abc123") } =
      (.wrongBranch, [{ repoWithStep with branch := "refs/heads/main" }], false) := by
  refine ⟨by decide, by decide, by decide, by decide⟩

/-- C6 (amended): the branch is the ref with every occurrence of
`refs/heads/` removed when the ref starts with that prefix (Python
`str.replace` semantics), not only the leading one; with that branch
rule, for every push payload concerning a tracked repo the handler
ignores a push to a differing branch with a 200 and no registry change,
and on the tracked branch with a `head_commit` present it sets that
repo's `last_commit_sha` to `head_commit.id`, persists exactly that
entry, and invokes `invalidate_for_repo`. -/
theorem claim_C6_push_handler (repos : List SavedRepository) (p : PushPayload)
    (repo : SavedRepository) (hne : p.repo_full_name ≠ "")
    (hf : findRepo repos p.repo_full_name = some repo) :
    (extractBranch p.ref ≠ repo.branch →
      handlePushEvent repos p = (.wrongBranch, repos, false)) ∧
    (∀ sha, extractBranch p.ref = repo.branch → p.head_commit = some sha →
      ∃ l1 l2, repos = l1 ++ repo :: l2 ∧
        (∀ x ∈ l1, x.repo_full_name ≠ p.repo_full_name) ∧
        handlePushEvent repos p =
          (.invalidated, l1 ++ { repo with last_commit_sha := sha } :: l2, true)) := by
  have hne' : (p.repo_full_name == "") = false := by
    simpa [beq_eq_false_iff_ne] using hne
  constructor
  · intro hbr
    have hbr' : (repo.branch != extractBranch p.ref) = true := by
      simp [bne_iff_ne]
      exact fun hh => hbr hh.symm
    simp [handlePushEvent, hne', hf, hbr']
  · intro sha hbr hhc
    have hbr' : (repo.branch != extractBranch p.ref) = false := by
      simp [bne_eq_false_iff_eq, hbr]
    have hname : repo.repo_full_name = p.repo_full_name := findRepo_name_eq hf
    obtain ⟨l1, l2, hsplit, hl1, hupd⟩ :=
      findRepo_updateRepoList
        ({ repo with last_commit_sha := sha }) hf hname
    exact ⟨l1, l2, hsplit, hl1, by simp [handlePushEvent, hne', hf, hbr', hhc, hupd]⟩

/-- C6 witness: a push of commit `abc123` to the tracked branch `main` of
`acme/widget` persists the new sha on exactly that entry and triggers
invalidation; a push to `feature/x` is ignored. -/
theorem claim_C6_push_handler_witness :
    (extractBranch "refs/heads/feature/x" ≠ repoPool.branch ∧
      handlePushEvent [repoPool, repoOther]
        { repo_full_name := "acme/widget", ref := "refs/heads/feature/x",
          head_commit := some (some "abc123") } =
        (.wrongBranch, [repoPool, repoOther], false)) ∧
    ∃ l1 l2, [repoPool, repoOther] = l1 ++ repoPool :: l2 ∧
      (∀ x ∈ l1, x.repo_full_name ≠ "acme/widget") ∧
      handlePushEvent [repoPool, repoOther]
        { repo_full_name := "acme/widget", ref := "refs/heads/main",
          head_commit := some (some "abc123") } =
        (.invalidated,
          l1 ++ { repoPool with last_commit_sha := some "abc123" } :: l2, true) := by
  constructor
  · exact ⟨by decide,
      (claim_C6_push_handler [repoPool, repoOther]
        { repo_full_name := "acme/widget", ref := "refs/heads/feature/x",
          head_commit := some (some "abc123") } repoPool
        (by decide) (by decide)).1 (by decide)⟩
  · exact (claim_C6_push_handler [repoPool, repoOther]
      { repo_full_name := "acme/widget", ref := "refs/heads/main",
        head_commit := some (some "abc123") } repoPool
      (by decide) (by decide)).2 (some "abc123") (by decide) rfl

/-- Membership in the list written by `add_repo`: every element is an
untouched pre-existing entry, the freshly appended repo, or a
pre-existing entry with `branch`, `git_provider`, `pool_size`
overwritten. -/
theorem mem_addRepoList {repos : List SavedRepository} {repo r : SavedRepository}
    (h : r ∈ addRepoList repos repo) :
    r ∈ repos ∨ r = repo ∨
      ∃ r0 ∈ repos,
        r = { r0 with branch := repo.branch, git_provider := repo.git_provider,
                      pool_size := repo.pool_size } := by
  induction repos with
  | nil =>
    simp [addRepoList] at h
    exact Or.inr (Or.inl h)
  | cons x rest ih =>
    by_cases hx : (x.repo_full_name == repo.repo_full_name) = true
    · simp [addRepoList, hx] at h
      rcases h with rfl | hr
      · exact Or.inr (Or.inr ⟨x, by simp, rfl⟩)
      · exact Or.inl (by simp [hr])
    · simp only [addRepoList, hx, Bool.false_eq_true, if_false, List.mem_cons] at h
      rcases h with rfl | hr
      · exact Or.inl (by simp)
      · rcases ih hr with h1 | h2 | ⟨r0, hr0, he⟩
        · exact Or.inl (by simp [h1])
        · exact Or.inr (Or.inl h2)
        · exact Or.inr (Or.inr ⟨r0, by simp [hr0], he⟩)

/-- Membership in the list written by `update_repo`: every element is a
pre-existing entry or the replacement record. -/
theorem mem_updateRepoList {repos : List SavedRepository} {repo r : SavedRepository}
    (h : r ∈ (updateRepoList repos repo).1) :
    r ∈ repos ∨ r = repo := by
  induction repos with
  | nil =>
    simp [updateRepoList] at h
  | cons x rest ih =>
    by_cases hx : (x.repo_full_name == repo.repo_full_name) = true
    · simp [updateRepoList, hx] at h
      rcases h with rfl | hr
      · exact Or.inr rfl
      · exact Or.inl (by simp [hr])
    · simp only [updateRepoList, hx, Bool.false_eq_true, if_false, List.mem_cons] at h
      rcases h with rfl | hr
      · exact Or.inl (by simp)
      · rcases ih hr with h1 | h2
        · exact Or.inl (by simp [h1])
        · exact Or.inr h2

/-- C9: both repo-writing endpoints constrain `pool_size` to `[1, 10]`:
a request whose `pool_size` lies outside the interval is rejected with
HTTP 400 before anything reaches the store, and consequently, starting
from a registry whose entries all satisfy the bound, any registry either
endpoint successfully writes still satisfies it everywhere. -/
theorem claim_C9_pool_size_bounds :
    (∀ (now : Nat) (repos : List SavedRepository) (req : AddRepoRequest),
      req.pool_size < 1 ∨ 10 < req.pool_size →
      addSavedRepo now repos req = .error 400) ∧
    (∀ (repos : List SavedRepository) (name : String) (req : UpdateRepoRequest)
      (repo : SavedRepository) (p : Int), findRepo repos name = some repo →
      req.pool_size = some p → (p < 1 ∨ 10 < p) →
      updateSavedRepo repos name req = .error 400) ∧
    (∀ (now : Nat) (repos repos' : List SavedRepository) (req : AddRepoRequest),
      (∀ r ∈ repos, 1 ≤ r.pool_size ∧ r.pool_size ≤ 10) →
      addSavedRepo now repos req = .ok repos' →
      ∀ r ∈ repos', 1 ≤ r.pool_size ∧ r.pool_size ≤ 10) ∧
    (∀ (repos repos' : List SavedRepository) (name : String)
      (req : UpdateRepoRequest),
      (∀ r ∈ repos, 1 ≤ r.pool_size ∧ r.pool_size ≤ 10) →
      updateSavedRepo repos name req = .ok repos' →
      ∀ r ∈ repos', 1 ≤ r.pool_size ∧ r.pool_size ≤ 10) := by
  refine ⟨?_, ?_, ?_, ?_⟩
  · intro now repos req hout
    cases hp : ProviderType.ofString? req.git_provider with
    | none => simp [addSavedRepo, hp]
    | some gp =>
      have : (req.pool_size < 1 || req.pool_size > 10) = true := by
        rcases hout with h1 | h1 <;> simp [h1]
      simp [addSavedRepo, hp, this]
  · intro repos name req repo p hf hp hout
    have : (p < 1 || p > 10) = true := by
      rcases hout with h1 | h1 <;> simp [h1]
    simp [updateSavedRepo, hf, hp, this]
  · intro now repos repos' req hinv hok r hr
    cases hp : ProviderType.ofString? req.git_provider with
    | none => simp [addSavedRepo, hp] at hok
    | some gp =>
      by_cases hguard : (req.pool_size < 1 || req.pool_size > 10) = true
      · simp [addSavedRepo, hp, hguard] at hok
      · have hbound : 1 ≤ req.pool_size ∧ req.pool_size ≤ 10 := by
          simp only [Bool.or_eq_true, decide_eq_true_eq, not_or] at hguard
          omega
        simp only [addSavedRepo, hp, hguard, Bool.false_eq_true, if_false,
          Except.ok.injEq] at hok
        subst hok
        rcases mem_addRepoList hr with h1 | h2 | ⟨r0, _, he⟩
        · exact hinv r h1
        · subst h2; exact hbound
        · subst he; exact hbound
  · intro repos repos' name req hinv hok r hr
    cases hf : findRepo repos name with
    | none => simp [updateSavedRepo, hf] at hok
    | some repo =>
      have hrepo := hinv repo (findRepo_mem hf)
      cases hp : req.pool_size with
      | some p =>
        by_cases hguard : (p < 1 || p > 10) = true
        · simp [updateSavedRepo, hf, hp, hguard] at hok
        · have hbound : 1 ≤ p ∧ p ≤ 10 := by
            simp only [Bool.or_eq_true, decide_eq_true_eq, not_or] at hguard
            omega
          simp only [updateSavedRepo, hf, hp, hguard, Bool.false_eq_true, if_false,
            Except.ok.injEq] at hok
          subst hok
          rcases mem_updateRepoList hr with h1 | h2
          · exact hinv r h1
          · subst h2; exact hbound
      | none =>
        simp only [updateSavedRepo, hf, hp, Except.ok.injEq] at hok
        subst hok
        rcases mem_updateRepoList hr with h1 | h2
        · exact hinv r h1
        · subst h2
          cases hb : req.branch <;> cases hs : req.last_commit_sha <;>
            simp [hb, hs] <;> exact hrepo

/-- C9 witness: `pool_size = 0` is rejected by both endpoints with 400,
and a successful `pool_size = 3` add into a bounded registry keeps every
entry's `pool_size` within `[1, 10]`. -/
theorem claim_C9_pool_size_bounds_witness :
    addSavedRepo 0 [repoPool]
      { repo_full_name := "acme/widget", branch := "main",
        git_provider := "github", pool_size := 0 } = .error 400 ∧
    updateSavedRepo [repoPool] "acme/widget"
      { branch := none, last_commit_sha := none, pool_size := some 0 } =
      .error 400 ∧
    ∀ r ∈ addRepoList [repoPool]
        { repo_full_name := "acme/gadget", branch := "main",
          git_provider := .github, added_at := 0, last_commit_sha := none,
          pool_size := 3, prewarmed_conversations := [] },
      1 ≤ r.pool_size ∧ r.pool_size ≤ 10 := by
  refine ⟨?_, ?_, ?_⟩
  · exact claim_C9_pool_size_bounds.1 0 [repoPool]
      { repo_full_name := "acme/widget", branch := "main",
        git_provider := "github", pool_size := 0 } (by decide)
  · exact claim_C9_pool_size_bounds.2.1 [repoPool] "acme/widget"
      { branch := none, last_commit_sha := none, pool_size := some 0 } repoPool 0
      (by decide) rfl (by decide)
  · exact claim_C9_pool_size_bounds.2.2.1 0 [repoPool] _
      { repo_full_name := "acme/gadget", branch := "main",
        git_provider := "github", pool_size := 3 }
      (by decide) rfl

/-- Removing the claimed conversation by id removes exactly the claimed
entry when conversation ids are distinct. -/
theorem filter_ne_claimed {p1 p2 : List PrewarmedConversation}
    {fr : PrewarmedConversation}
    (h : ((p1 ++ fr :: p2).map (fun c => c.conversation_id)).Nodup) :
    (p1 ++ fr :: p2).filter
        (fun c => c.conversation_id != fr.conversation_id) = p1 ++ p2 := by
  rw [List.map_append, List.map_cons] at h
  obtain ⟨-, h2, hdisj⟩ := List.nodup_append.mp h
  have hp1 : ∀ c ∈ p1, (c.conversation_id != fr.conversation_id) = true := by
    intro c hc
    simp only [bne_iff_ne, ne_eq]
    intro heq
    exact hdisj (List.mem_map_of_mem _ hc) (by simp [heq])
  have hfr : fr.conversation_id ∉ p2.map (fun c => c.conversation_id) :=
    (List.nodup_cons.mp h2).1
  have hp2 : ∀ c ∈ p2, (c.conversation_id != fr.conversation_id) = true := by
    intro c hc
    simp only [bne_iff_ne, ne_eq]
    intro heq
    exact hfr (heq ▸ List.mem_map_of_mem _ hc)
  rw [List.filter_append, List.filter_cons]
  simp only [bne_self_eq_false, Bool.false_eq_true, if_false]
  rw [List.filter_eq_self.mpr hp1, List.filter_eq_self.mpr hp2]

/-- C3: for a repo present in the registry, `claim_conversation` returns
the conversation id of the first entry with status `ready` in
`prewarmed_conversations` (insertion order), removes exactly that entry
(every entry before it is not ready; all other entries survive in
order), and persists the registry with only that repo's record rewritten;
when the repo is absent or has no ready entry it returns `none` with the
registry untouched. Conversation ids are assumed distinct per repo, the
registry invariant the spec states (ids are random 128-bit values). -/
theorem claim_C3_claim_conversation (repos : List SavedRepository) (name : String)
    (hnodup : ∀ r ∈ repos,
      (r.prewarmed_conversations.map (fun c => c.conversation_id)).Nodup) :
    (findRepo repos name = none → claimConversation repos name = (none, repos)) ∧
    (∀ repo, findRepo repos name = some repo →
      getReadyConversations repo = [] →
      claimConversation repos name = (none, repos)) ∧
    (∀ repo fr rest, findRepo repos name = some repo →
      getReadyConversations repo = fr :: rest →
      (claimConversation repos name).1 = some fr.conversation_id ∧
      fr.status = "ready" ∧
      ∃ p1 p2, repo.prewarmed_conversations = p1 ++ fr :: p2 ∧
        (∀ c ∈ p1, c.status ≠ "ready") ∧
        ∃ l1 l2, repos = l1 ++ repo :: l2 ∧
          (∀ x ∈ l1, x.repo_full_name ≠ name) ∧
          (claimConversation repos name).2 =
            l1 ++ { repo with prewarmed_conversations := p1 ++ p2 } :: l2) := by
  refine ⟨?_, ?_, ?_⟩
  · intro hf
    simp [claimConversation, hf]
  · intro repo hf hready
    simp [claimConversation, hf, hready]
  · intro repo fr rest hf hready
    have hnod := hnodup repo (findRepo_mem hf)
    have hready' : repo.prewarmed_conversations.filter
        (fun c => c.status == "ready") = fr :: rest := hready
    obtain ⟨p1, p2, hsplit, hp1, hpfr, -⟩ := List.filter_eq_cons_iff.mp hready'
    have hfilter : repo.prewarmed_conversations.filter
        (fun c => c.conversation_id != fr.conversation_id) = p1 ++ p2 := by
      rw [hsplit]
      exact filter_ne_claimed (by rw [← hsplit]; exact hnod)
    have hname : repo.repo_full_name = name := findRepo_name_eq hf
    obtain ⟨l1, l2, hrsplit, hl1, hupd⟩ :=
      findRepo_updateRepoList
        ({ repo with prewarmed_conversations := repo.prewarmed_conversations.filter (fun c => c.conversation_id != fr.conversation_id) })
        hf hname
    refine ⟨by simp [claimConversation, hf, hready], ?_, p1, p2, hsplit, ?_, l1, l2,
      hrsplit, hl1, ?_⟩
    · simpa using hpfr
    · intro c hc
      have := hp1 c hc
      simpa using this
    · simp only [claimConversation, hf, hready]
      rw [hupd, hfilter]

/-- C3 witness: claiming from `acme/widget`, whose pool holds a warming
entry followed by ready entries `aaa` then `bbb`, returns `aaa` — the
first ready entry in insertion order — removes exactly it, and leaves
the other repo's record untouched. -/
theorem claim_C3_claim_conversation_witness :
    (claimConversation [repoPool, repoOther] "acme/widget").1 =
      some convReadyA.conversation_id ∧
    convReadyA.status = "ready" ∧
    ∃ p1 p2, repoPool.prewarmed_conversations = p1 ++ convReadyA :: p2 ∧
      (∀ c ∈ p1, c.status ≠ "ready") ∧
      ∃ l1 l2, [repoPool, repoOther] = l1 ++ repoPool :: l2 ∧
        (∀ x ∈ l1, x.repo_full_name ≠ "acme/widget") ∧
        (claimConversation [repoPool, repoOther] "acme/widget").2 =
          l1 ++ { repoPool with prewarmed_conversations := p1 ++ p2 } :: l2 :=
  (claim_C3_claim_conversation [repoPool, repoOther] "acme/widget"
    (by decide)).2.2 repoPool convReadyA [convReadyB] (by decide) (by decide)

/-- C5: outcome of one `_warm_conversation` run for an existing repo,
with `initialize_conversation` (the metadata-only path's only external
call) succeeding. When no provider tokens are stored, the Warmer degrades
to metadata-only warming and the entry still ends `ready`; when the
factory path raises a message containing one of `'Settings not found'`,
`'LLM'`, `'API key'`, it likewise degrades and ends `ready`; any other
exception ends the entry with status `error` and the exception's string
as `error_message`. -/
theorem claim_C5_settings_degradation (env : WarmEnv)
    (hrepo : env.repoFound = true) (hmeta : env.metadata = .ok) :
    (env.hasTokens = false →
      warmFinal env = some ⟨"ready", none, some "ready"⟩) ∧
    (∀ msg, env.hasTokens = true → env.factory = .raised msg →
      isSettingsError msg = true →
      warmFinal env = some ⟨"ready", none, some "ready"⟩) ∧
    (∀ msg, env.hasTokens = true → env.factory = .raised msg →
      isSettingsError msg = false →
      warmFinal env = some ⟨"error", some msg, some "error"⟩) := by
  refine ⟨?_, ?_, ?_⟩
  · intro htok
    simp [warmFinal, warmUpdates, hrepo, htok, hmeta, metadataUpdates]
  · intro msg htok hfac hset
    simp [warmFinal, warmUpdates, hrepo, htok, hfac, hset, hmeta, metadataUpdates]
  · intro msg htok hfac hset
    simp [warmFinal, warmUpdates, hrepo, htok, hfac, hset]

/-- C5 witness: with tokens stored, a factory failure mentioning an LLM
configuration problem still ends `ready` via metadata-only warming; a
plain failure ends `error` carrying the message; and a run without
tokens ends `ready`. -/
theorem claim_C5_settings_degradation_witness :
    warmFinal { repoFound := true, hasTokens := true,
                factory := .raised "LLM provider not configured", poll := [],
                metadata := .ok } = some ⟨"ready", none, some "ready"⟩ ∧
    warmFinal { repoFound := true, hasTokens := true,
                factory := .raised "connection reset", poll := [],
                metadata := .ok } =
      some ⟨"error", some "connection reset", some "error"⟩ ∧
    warmFinal { repoFound := true, hasTokens := false, factory := .ok,
                poll := [], metadata := .ok } =
      some ⟨"ready", none, some "ready"⟩ :=
  ⟨(claim_C5_settings_degradation _ rfl rfl).2.1 "LLM provider not configured"
      rfl rfl (by decide),
   (claim_C5_settings_degradation _ rfl rfl).2.2 "connection reset"
      rfl rfl (by decide),
   (claim_C5_settings_degradation _ rfl rfl).1 rfl⟩

/-- C8: `load_all` is total. A missing file and an unreadable or
unparseable file both yield the empty list; a malformed repository entry
anywhere in the `repositories` array is skipped while the surrounding
entries parse exactly as they would without it; a well-formed entry is
returned in position; and a malformed prewarmed-conversation entry is
skipped inside its repo while its well-formed neighbours are kept. No
input reaches an uncaught exception: every failure path lands in one of
these clauses. -/
theorem claim_C8_load_all_total :
    (∀ now, loadAll now .missing = []) ∧
    (∀ now, loadAll now .malformed = []) ∧
    (∀ now xs1 xs2 x, (dictToRepo now x).toOption = none →
      loadAll now (.json (Json.obj [("repositories", Json.arr (xs1 ++ x :: xs2))])) =
        loadAll now (.json (Json.obj [("repositories", Json.arr (xs1 ++ xs2))]))) ∧
    (∀ now xs1 xs2 x r, dictToRepo now x = .ok r →
      loadAll now (.json (Json.obj [("repositories", Json.arr (xs1 ++ x :: xs2))])) =
        loadAll now (.json (Json.obj [("repositories", Json.arr xs1)])) ++
          r :: loadAll now (.json (Json.obj [("repositories", Json.arr xs2)]))) ∧
    (∀ now cs1 cs2 c, (dictToPrewarmedConv now c).toOption = none →
      (cs1 ++ c :: cs2).filterMap (fun x => (dictToPrewarmedConv now x).toOption) =
        (cs1 ++ cs2).filterMap (fun x => (dictToPrewarmedConv now x).toOption)) := by
  refine ⟨fun _ => rfl, fun _ => rfl, ?_, ?_, ?_⟩
  · intro now xs1 xs2 x hx
    simp [loadAll, getField, List.filterMap_append, hx]
  · intro now xs1 xs2 x r hx
    simp [loadAll, getField, List.filterMap_append, List.filterMap_cons, hx,
      Except.toOption]
  · intro now cs1 cs2 c hc
    simp [List.filterMap_append, hc]

/-- C8 witness: a number where a repo dictionary should be, and an entry
missing its `repo_full_name`, are both skipped; the well-formed entry
between them is parsed and returned. -/
theorem claim_C8_load_all_total_witness :
    (dictToRepo 7 (Json.num 3)).toOption = none ∧
    loadAll 7 (.json (Json.obj [("repositories",
        Json.arr ([Json.obj [("repo_full_name", Json.str "acme/widget")]] ++
          Json.num 3 :: []))])) =
      loadAll 7 (.json (Json.obj [("repositories",
        Json.arr ([Json.obj [("repo_full_name", Json.str "acme/widget")]] ++ []))])) ∧
    dictToRepo 7 (Json.obj [("repo_full_name", Json.str "acme/widget")]) =
      .ok { repo_full_name := "acme/widget", branch := "main",
            git_provider := .github, added_at := 7, last_commit_sha := none,
            pool_size := 2, prewarmed_conversations := [],
            prewarmed_conversation_id := none, prewarmed_status := "pending" } ∧
    loadAll 7 (.json (Json.obj [("repositories",
        Json.arr ([] ++ Json.obj [("repo_full_name", Json.str "acme/widget")] ::
          [Json.num 3]))])) =
      loadAll 7 (.json (Json.obj [("repositories", Json.arr [])])) ++
        { repo_full_name := "acme/widget", branch := "main",
          git_provider := .github, added_at := 7, last_commit_sha := none,
          pool_size := 2, prewarmed_conversations := [],
          prewarmed_conversation_id := none, prewarmed_status := "pending" } ::
          loadAll 7 (.json (Json.obj [("repositories", Json.arr [Json.num 3])])) :=
  ⟨by decide,
   claim_C8_load_all_total.2.2.1 7
     [Json.obj [("repo_full_name", Json.str "acme/widget")]] [] (Json.num 3)
     (by decide),
   by decide,
   claim_C8_load_all_total.2.2.2.1 7 [] [Json.num 3]
     (Json.obj [("repo_full_name", Json.str "acme/widget")]) _ (by decide)⟩

/-- Appending the fresh warming entry of `_ensure_pool_filled` raises the
active count by exactly one. -/
theorem activeCount_append (repo : SavedRepository) (cid : String) (now : Nat) :
    activeCount { repo with prewarmed_conversations :=
        repo.prewarmed_conversations ++ [mkWarmingConv cid now] } =
      activeCount repo + 1 := by
  simp [activeCount, mkWarmingConv, List.filter_append]

/-- The fill loop, started below or at target, ends with the active count
exactly at `pool_size`, leaves `pool_size` itself untouched, and only
appends entries — all of them `warming` with step `queued`. -/
theorem fillLoop_spec : ∀ (n : Nat) (ids : Nat → String) (now k : Nat)
    (repo : SavedRepository),
    (activeCount repo : Int) ≤ repo.pool_size →
    (repo.pool_size - (activeCount repo : Int)).toNat = n →
    (activeCount (fillLoop ids now k repo) : Int) = repo.pool_size ∧
    (fillLoop ids now k repo).pool_size = repo.pool_size ∧
    ∃ suffix, (fillLoop ids now k repo).prewarmed_conversations =
        repo.prewarmed_conversations ++ suffix ∧
      ∀ c ∈ suffix, c.status = "warming" ∧ c.warming_step = some "queued" := by
  intro n
  induction n with
  | zero =>
    intro ids now k repo h hn
    have hstop : needsMoreConversations repo = false := by
      simp only [needsMoreConversations, decide_eq_false_iff_not, not_lt]
      omega
    unfold fillLoop
    rw [hstop]
    simp only [Bool.false_eq_true, if_false]
    exact ⟨by omega, by trivial, [], by simp, by simp⟩
  | succ n ih =>
    intro ids now k repo h hn
    have hgo : needsMoreConversations repo = true := by
      simp only [needsMoreConversations, decide_eq_true_eq]
      omega
    unfold fillLoop
    rw [hgo]
    simp only [if_true]
    have hact := activeCount_append repo (ids k) now
    have h' : (activeCount { repo with prewarmed_conversations :=
        repo.prewarmed_conversations ++ [mkWarmingConv (ids k) now] } : Int) ≤
        ({ repo with prewarmed_conversations :=
          repo.prewarmed_conversations ++ [mkWarmingConv (ids k) now] } :
            SavedRepository).pool_size := by
      rw [hact]
      simp only [needsMoreConversations, decide_eq_true_eq] at hgo
      push_cast
      omega
    have hn' : (({ repo with prewarmed_conversations :=
        repo.prewarmed_conversations ++ [mkWarmingConv (ids k) now] } :
          SavedRepository).pool_size -
        (activeCount { repo with prewarmed_conversations :=
          repo.prewarmed_conversations ++ [mkWarmingConv (ids k) now] } : Int)).toNat
        = n := by
      rw [hact]
      push_cast
      omega
    obtain ⟨h1, h2, suffix, hs, hprop⟩ := ih ids now (k + 1) _ h' hn'
    refine ⟨by rw [h1], by rw [h2], mkWarmingConv (ids k) now :: suffix, ?_, ?_⟩
    · rw [hs]
      simp
    · intro c hc
      rcases List.mem_cons.mp hc with rfl | hc
      · exact ⟨rfl, rfl⟩
      · exact hprop c hc

/-- `_ensure_pool_filled` preserves the per-repo active-count bound. -/
theorem ensurePoolFilled_preserves (ids : Nat → String) (now : Nat)
    (repos : List SavedRepository) (name : String)
    (hinv : ∀ r ∈ repos, (activeCount r : Int) ≤ r.pool_size) :
    ∀ r ∈ ensurePoolFilled ids now repos name,
      (activeCount r : Int) ≤ r.pool_size := by
  intro r hr
  unfold ensurePoolFilled at hr
  cases hf : findRepo repos name with
  | none =>
    rw [hf] at hr
    exact hinv r hr
  | some repo =>
    rw [hf] at hr
    rcases mem_updateRepoList hr with h1 | h2
    · exact hinv r h1
    · subst h2
      obtain ⟨h1, h2, -⟩ :=
        fillLoop_spec _ ids now 0 repo (hinv repo (findRepo_mem hf)) rfl
      rw [h1, h2]

/-- Filtering the pool can only lower the active count. -/
theorem activeCount_filter_le (repo : SavedRepository)
    (q : PrewarmedConversation → Bool) :
    activeCount { repo with prewarmed_conversations :=
        repo.prewarmed_conversations.filter q } ≤ activeCount repo := by
  simp only [activeCount]
  exact List.Sublist.length_le ((List.filter_sublist _).filter _)

/-- A status update targeting an already-active entry (or assigning an
inactive status) never raises the active count. -/
theorem updateFirstConv_active_le (cid status : String) (em ws : Option String)
    (l : List PrewarmedConversation)
    (hcond : (status = "ready" ∨ status = "warming") →
      ∀ c ∈ l, c.conversation_id = cid →
        (c.status = "ready" ∨ c.status = "warming")) :
    ((updateFirstConv cid status em ws l).filter
        (fun c => c.status == "ready" || c.status == "warming")).length ≤
      (l.filter (fun c => c.status == "ready" || c.status == "warming")).length := by
  induction l with
  | nil => simp [updateFirstConv]
  | cons c rest ih =>
    by_cases hc : (c.conversation_id == cid) = true
    · simp only [updateFirstConv, hc, if_true]
      rw [List.filter_cons, List.filter_cons]
      by_cases hst : status = "ready" ∨ status = "warming"
      · have hca : (c.status == "ready" || c.status == "warming") = true := by
          have := hcond hst c (by simp) (by simpa [beq_iff_eq] using hc)
          rcases this with h | h <;> simp [h]
        have hna : (status == "ready" || status == "warming") = true := by
          rcases hst with h | h <;> simp [h]
        simp [hca, hna]
      · have hna : (status == "ready" || status == "warming") = false := by
          simp only [not_or] at hst
          simp [hst.1, hst.2]
        simp only [hna, Bool.false_eq_true, if_false]
        split <;> simp
    · have hc' : (c.conversation_id == cid) = false := by
        simpa using hc
      simp only [updateFirstConv, hc', Bool.false_eq_true, if_false]
      rw [List.filter_cons, List.filter_cons]
      have ihr := ih (fun hst x hx hid => hcond hst x (by simp [hx]) hid)
      split <;> simpa using ihr

/-- C4: the pool-sizing invariant. First, `_ensure_pool_filled`'s loop
appends fresh `warming[queued]` entries only while the active
(ready + warming) count is strictly below `pool_size` and stops with the
count exactly at `pool_size` (started at or below it). Second through
fifth: each completed Pool Manager transaction — `_ensure_pool_filled`,
`claim_conversation`, `invalidate_for_repo`, `_update_conversation_status`
— keeps every repo's active count at most its `pool_size`. For the status
update, the count can only stay bounded when an activating status is
written to an entry that is already active, which is how the warming path
calls it (a warmer only updates its own, still-active entry; updates to
removed entries change nothing, per C10). -/
theorem claim_C4_active_bounded :
    (∀ (ids : Nat → String) (now k : Nat) (repo : SavedRepository),
      (activeCount repo : Int) ≤ repo.pool_size →
      (activeCount (fillLoop ids now k repo) : Int) = repo.pool_size ∧
      (fillLoop ids now k repo).pool_size = repo.pool_size ∧
      ∃ suffix, (fillLoop ids now k repo).prewarmed_conversations =
          repo.prewarmed_conversations ++ suffix ∧
        ∀ c ∈ suffix, c.status = "warming" ∧ c.warming_step = some "queued") ∧
    (∀ (ids : Nat → String) (now : Nat) (repos : List SavedRepository)
      (name : String),
      (∀ r ∈ repos, (activeCount r : Int) ≤ r.pool_size) →
      ∀ r ∈ ensurePoolFilled ids now repos name,
        (activeCount r : Int) ≤ r.pool_size) ∧
    (∀ (repos : List SavedRepository) (name : String),
      (∀ r ∈ repos, (activeCount r : Int) ≤ r.pool_size) →
      ∀ r ∈ (claimConversation repos name).2,
        (activeCount r : Int) ≤ r.pool_size) ∧
    (∀ (ids : Nat → String) (now : Nat) (repos : List SavedRepository)
      (name : String),
      (∀ r ∈ repos, (activeCount r : Int) ≤ r.pool_size ∧ 0 ≤ r.pool_size) →
      ∀ r ∈ invalidateForRepo ids now repos name,
        (activeCount r : Int) ≤ r.pool_size) ∧
    (∀ (repos : List SavedRepository) (name cid status : String)
      (em ws : Option String),
      (∀ r ∈ repos, (activeCount r : Int) ≤ r.pool_size) →
      ((status = "ready" ∨ status = "warming") →
        ∀ r ∈ repos, r.repo_full_name = name →
        ∀ c ∈ r.prewarmed_conversations, c.conversation_id = cid →
          (c.status = "ready" ∨ c.status = "warming")) →
      ∀ r ∈ updateConversationStatus repos name cid status em ws,
        (activeCount r : Int) ≤ r.pool_size) := by
  refine ⟨?_, ensurePoolFilled_preserves, ?_, ?_, ?_⟩
  · intro ids now k repo h
    exact fillLoop_spec _ ids now k repo h rfl
  · intro repos name hinv r hr
    cases hf : findRepo repos name with
    | none =>
      simp only [claimConversation, hf] at hr
      exact hinv r hr
    | some repo =>
      cases hready : getReadyConversations repo with
      | nil =>
        simp only [claimConversation, hf, hready] at hr
        exact hinv r hr
      | cons fr rest =>
        simp only [claimConversation, hf, hready] at hr
        rcases mem_updateRepoList hr with h1 | h2
        · exact hinv r h1
        · subst h2
          have hle := activeCount_filter_le repo
            (fun c => c.conversation_id != fr.conversation_id)
          have hpool := hinv repo (findRepo_mem hf)
          calc (activeCount { repo with prewarmed_conversations := repo.prewarmed_conversations.filter (fun c => c.conversation_id != fr.conversation_id) } : Int) ≤ (activeCount repo : Int) := by exact_mod_cast hle
            _ ≤ repo.pool_size := hpool
  · intro ids now repos name hinv r hr
    unfold invalidateForRepo at hr
    have hinv' : ∀ r ∈ invalidateClear repos name,
        (activeCount r : Int) ≤ r.pool_size := by
      intro r' hr'
      unfold invalidateClear at hr'
      cases hf : findRepo repos name with
      | none =>
        rw [hf] at hr'
        exact (hinv r' hr').1
      | some repo =>
        rw [hf] at hr'
        rcases mem_updateRepoList hr' with h1 | h2
        · exact (hinv r' h1).1
        · subst h2
          have : activeCount { repo with prewarmed_conversations :=
              ([] : List PrewarmedConversation) } = 0 := by
            simp [activeCount]
          rw [this]
          exact_mod_cast (hinv repo (findRepo_mem hf)).2
    exact ensurePoolFilled_preserves ids now _ name hinv' r hr
  · intro repos name cid status em ws hinv hcond r hr
    unfold updateConversationStatus at hr
    cases hf : findRepo repos name with
    | none =>
      rw [hf] at hr
      exact hinv r hr
    | some repo =>
      rw [hf] at hr
      rcases mem_updateRepoList hr with h1 | h2
      · exact hinv r h1
      · subst h2
        have hle := updateFirstConv_active_le cid status em ws
          repo.prewarmed_conversations
          (fun hst c hcmem hcid =>
            hcond hst repo (findRepo_mem hf) (findRepo_name_eq hf) c hcmem hcid)
        calc (activeCount { repo with prewarmed_conversations := updateFirstConv cid status em ws repo.prewarmed_conversations } : Int) ≤ (activeCount repo : Int) := by exact_mod_cast hle
          _ ≤ repo.pool_size := hinv repo (findRepo_mem hf)

/-- C4 witness: filling `acme/gadget` (empty pool, target 1) ends at
exactly one active entry; refilling, claiming from, invalidating, and
status-updating a bounded two-repo registry keeps every active count at
or below its `pool_size`. -/
theorem claim_C4_active_bounded_witness :
    ((activeCount (fillLoop (fun _ => "w") 0 0 repoOther) : Int) =
      repoOther.pool_size ∧
      (fillLoop (fun _ => "w") 0 0 repoOther).pool_size = repoOther.pool_size) ∧
    (∀ r ∈ ensurePoolFilled (fun _ => "w") 0 [repoBounded, repoOther]
        "acme/widget", (activeCount r : Int) ≤ r.pool_size) ∧
    (∀ r ∈ (claimConversation [repoBounded, repoOther] "acme/widget").2,
      (activeCount r : Int) ≤ r.pool_size) ∧
    (∀ r ∈ invalidateForRepo (fun _ => "w") 0 [repoBounded, repoOther]
        "acme/widget", (activeCount r : Int) ≤ r.pool_size) ∧
    (∀ r ∈ updateConversationStatus [repoBounded, repoOther] "acme/widget"
        "ccc" "ready" none (some "ready"),
      (activeCount r : Int) ≤ r.pool_size) :=
  ⟨⟨((claim_C4_active_bounded.1 (fun _ => "w") 0 0 repoOther) (by decide)).1,
    ((claim_C4_active_bounded.1 (fun _ => "w") 0 0 repoOther) (by decide)).2.1⟩,
   claim_C4_active_bounded.2.1 (fun _ => "w") 0 [repoBounded, repoOther]
     "acme/widget" (by decide),
   claim_C4_active_bounded.2.2.1 [repoBounded, repoOther] "acme/widget"
     (by decide),
   claim_C4_active_bounded.2.2.2.1 (fun _ => "w") 0 [repoBounded, repoOther]
     "acme/widget" (by decide),
   claim_C4_active_bounded.2.2.2.2 [repoBounded, repoOther] "acme/widget"
     "ccc" "ready" none (some "ready") (by decide) (by decide)⟩

theorem stepRank_cloning : stepRank "cloning_repo" = 2 := by decide

theorem stepRank_building : stepRank "building_runtime" = 3 := by decide

theorem stepRank_starting : stepRank "starting_agent" = 4 := by decide

/-- The steps written by the readiness-polling loop, started from a step
of rank at most two above the first observed gate, form a monotone chain
(prefixed by the starting step) and stay between `cloning_repo` and
`starting_agent`, provided the observed gates never regress. -/
theorem waitEmits_chain : ∀ (obs : List PollObs) (last : String),
    (∀ l ∈ (obs.filterMap obsLevel).head?, stepRank last ≤ l + 2) →
    (obs.filterMap obsLevel).Chain' (· ≤ ·) →
    (last :: (waitEmits last obs).1).Chain'
      (fun a b => stepRank a ≤ stepRank b) ∧
    ∀ e ∈ (waitEmits last obs).1, 2 ≤ stepRank e ∧ stepRank e ≤ 4 := by
  intro obs
  induction obs with
  | nil =>
    intro last hhead hchain
    exact ⟨List.chain'_singleton _, by simp [waitEmits]⟩
  | cons o rest ih =>
    intro last hhead hchain
    cases o with
    | noSession =>
      have hfm : ((PollObs.noSession :: rest).filterMap obsLevel) =
          rest.filterMap obsLevel := by
        simp [List.filterMap_cons, obsLevel]
      rw [hfm] at hhead hchain
      have := ih last hhead hchain
      simpa [waitEmits] using this
    | agentReady =>
      exact ⟨by simp [waitEmits], by simp [waitEmits]⟩
    | agentLoading =>
      have hfm : ((PollObs.agentLoading :: rest).filterMap obsLevel) =
          2 :: rest.filterMap obsLevel := by
        simp [List.filterMap_cons, obsLevel]
      rw [hfm] at hhead hchain
      rw [List.chain'_cons'] at hchain
      obtain ⟨hnext, hchain'⟩ := hchain
      have hlast4 : stepRank last ≤ 4 := by
        have := hhead 2 (by simp)
        omega
      by_cases hcase : (last != "starting_agent") = true
      · have hih := ih "starting_agent"
          (fun l hl => by rw [stepRank_starting]; have := hnext l hl; omega)
          hchain'
        refine ⟨?_, ?_⟩
        · simp only [waitEmits, hcase, if_true]
          exact List.chain'_cons.mpr ⟨by rw [stepRank_starting]; omega, hih.1⟩
        · simp only [waitEmits, hcase, if_true]
          intro e he
          rcases List.mem_cons.mp he with rfl | he
          · rw [stepRank_starting]
            omega
          · exact hih.2 e he
      · have hfalse : (last != "starting_agent") = false := by
          simpa using hcase
        have hlast_eq : last = "starting_agent" := by
          simpa [bne_eq_false_iff_eq] using hfalse
        subst hlast_eq
        have hih := ih "starting_agent"
          (fun l hl => by rw [stepRank_starting]; have := hnext l hl; omega)
          hchain'
        refine ⟨?_, ?_⟩
        · simpa only [waitEmits, bne_self_eq_false, Bool.false_eq_true,
            if_false] using hih.1
        · simpa only [waitEmits, bne_self_eq_false, Bool.false_eq_true,
            if_false] using hih.2
    | runtimeNoController =>
      have hfm : ((PollObs.runtimeNoController :: rest).filterMap obsLevel) =
          1 :: rest.filterMap obsLevel := by
        simp [List.filterMap_cons, obsLevel]
      rw [hfm] at hhead hchain
      rw [List.chain'_cons'] at hchain
      obtain ⟨hnext, hchain'⟩ := hchain
      have hlast3 : stepRank last ≤ 3 := by
        have := hhead 1 (by simp)
        omega
      by_cases hcase : (last != "building_runtime") = true
      · have hih := ih "building_runtime"
          (fun l hl => by rw [stepRank_building]; have := hnext l hl; omega)
          hchain'
        refine ⟨?_, ?_⟩
        · simp only [waitEmits, hcase, if_true]
          exact List.chain'_cons.mpr ⟨by rw [stepRank_building]; omega, hih.1⟩
        · simp only [waitEmits, hcase, if_true]
          intro e he
          rcases List.mem_cons.mp he with rfl | he
          · rw [stepRank_building]
            omega
          · exact hih.2 e he
      · have hfalse : (last != "building_runtime") = false := by
          simpa using hcase
        have hlast_eq : last = "building_runtime" := by
          simpa [bne_eq_false_iff_eq] using hfalse
        subst hlast_eq
        have hih := ih "building_runtime"
          (fun l hl => by rw [stepRank_building]; have := hnext l hl; omega)
          hchain'
        refine ⟨?_, ?_⟩
        · simpa only [waitEmits, bne_self_eq_false, Bool.false_eq_true,
            if_false] using hih.1
        · simpa only [waitEmits, bne_self_eq_false, Bool.false_eq_true,
            if_false] using hih.2
    | sessionNoRuntime a10 =>
      have hfm : ((PollObs.sessionNoRuntime a10 :: rest).filterMap obsLevel) =
          0 :: rest.filterMap obsLevel := by
        simp [List.filterMap_cons, obsLevel]
      rw [hfm] at hhead hchain
      rw [List.chain'_cons'] at hchain
      obtain ⟨hnext, hchain'⟩ := hchain
      have hlast2 : stepRank last ≤ 2 := by
        have := hhead 0 (by simp)
        omega
      by_cases hcase : ((last != "cloning_repo") && a10) = true
      · have hih := ih "cloning_repo"
          (fun l _ => by rw [stepRank_cloning]; omega)
          hchain'
        refine ⟨?_, ?_⟩
        · simp only [waitEmits, hcase, if_true]
          exact List.chain'_cons.mpr ⟨by rw [stepRank_cloning]; omega, hih.1⟩
        · simp only [waitEmits, hcase, if_true]
          intro e he
          rcases List.mem_cons.mp he with rfl | he
          · rw [stepRank_cloning]
            omega
          · exact hih.2 e he
      · have hfalse : ((last != "cloning_repo") && a10) = false := by
          simpa using hcase
        have hih := ih last
          (fun l _ => by omega)
          hchain'
        refine ⟨?_, ?_⟩
        · simpa only [waitEmits, hfalse, Bool.false_eq_true, if_false]
            using hih.1
        · simpa only [waitEmits, hfalse, Bool.false_eq_true, if_false]
            using hih.2

/-- C2 counterexample: the readiness-polling loop can record an earlier
step after a later one. With the runtime first observed initialized
without a controller and then observed gone again past the ten-second
mark, `_wait_for_runtime_ready` writes `building_runtime` and then
`cloning_repo`, so the recorded step sequence of the conversation
regresses from rank 3 back to rank 2 — the claimed order is violated. -/
theorem claim_C2_counterexample :
    warmSteps envRegress =
      ["queued", "initializing", "cloning_repo", "building_runtime",
       "cloning_repo", "ready"] ∧
    ¬ StepsMonotone (warmSteps envRegress) := by
  have h : warmSteps envRegress =
      ["queued", "initializing", "cloning_repo", "building_runtime",
       "cloning_repo", "ready"] := by decide
  refine ⟨h, ?_⟩
  intro hmono
  rw [StepsMonotone, h] at hmono
  simp [List.chain'_cons, stepRank] at hmono

/-- C2 (amended): the recorded `warming_step` sequence of one
conversation is monotone under
`queued < initializing < (creating_metadata | cloning_repo) <
building_runtime < starting_agent < ready` (with the terminal `error`
above all of them) provided the readiness observations never regress —
once the runtime is seen initialized it stays initialized and so on. The
code itself re-records `cloning_repo` after `building_runtime` or
`starting_agent` whenever the observed runtime disappears again after
ten seconds, so monotonicity holds exactly under this no-regression
assumption on the environment. -/
theorem claim_C2_warming_step_monotone (env : WarmEnv)
    (hobs : ObsMonotone env.poll) :
    StepsMonotone (warmSteps env) := by
  unfold StepsMonotone warmSteps warmUpdates
  cases hrf : env.repoFound with
  | false =>
    simp [hrf, List.chain'_cons, stepRank]
  | true =>
    cases htok : env.hasTokens with
    | false =>
      cases hm : env.metadata with
      | ok =>
        simp [hrf, htok, hm, metadataUpdates, List.chain'_cons, stepRank]
      | raised msg =>
        simp [hrf, htok, hm, metadataUpdates, List.chain'_cons, stepRank]
    | true =>
      cases hfac : env.factory with
      | raised msg =>
        by_cases hset : isSettingsError msg = true
        · cases hm : env.metadata with
          | ok =>
            simp [hrf, htok, hfac, hset, hm, metadataUpdates,
              List.chain'_cons, stepRank]
          | raised m2 =>
            simp [hrf, htok, hfac, hset, hm, metadataUpdates,
              List.chain'_cons, stepRank]
        · have hset' : isSettingsError msg = false := by simpa using hset
          simp [hrf, htok, hfac, hset', List.chain'_cons, stepRank]
      | ok =>
        obtain ⟨hch, hbounds⟩ := waitEmits_chain env.poll "cloning_repo"
          (fun l _ => by rw [stepRank_cloning]; omega) hobs
        cases hrch : (waitEmits "cloning_repo" env.poll).2 with
        | true =>
          simp only [hrf, htok, hfac, hrch, Bool.not_true, Bool.false_eq_true,
            if_false, if_true, List.filterMap_cons, List.filterMap_append,
            List.filterMap_map, Function.comp_def, Option.some.injEq]
          have hfmap : (waitEmits "cloning_repo" env.poll).1.filterMap
              (fun s => some s) = (waitEmits "cloning_repo" env.poll).1 := by
            simp
          rw [hfmap]
          refine List.chain'_cons.mpr ⟨by simp [stepRank], ?_⟩
          refine List.chain'_cons.mpr ⟨by simp [stepRank], ?_⟩
          have hCE : (("cloning_repo" :: (waitEmits "cloning_repo" env.poll).1)
              ++ ["ready"]).Chain' (fun a b => stepRank a ≤ stepRank b) := by
            rw [List.chain'_append]
            refine ⟨hch, List.chain'_singleton _, ?_⟩
            intro x hx y hy
            have hxmem := List.mem_of_mem_getLast? hx
            have hy' : y = "ready" := by
              have h := hy
              simp only [List.head?_cons, Option.mem_def, Option.some.injEq] at h
              exact h.symm
            subst hy'
            have hxb : stepRank x ≤ 4 := by
              rcases List.mem_cons.mp hxmem with rfl | hxm
              · rw [stepRank_cloning]
                omega
              · exact (hbounds x hxm).2
            have hr5 : stepRank "ready" = 5 := by decide
            omega
          rw [List.cons_append] at hCE
          simpa using hCE
        | false =>
          simp only [hrf, htok, hfac, hrch, Bool.not_true, Bool.false_eq_true,
            if_false, if_true, List.filterMap_cons, List.filterMap_append,
            List.filterMap_map, Function.comp_def, Option.some.injEq]
          have hfmap : (waitEmits "cloning_repo" env.poll).1.filterMap
              (fun s => some s) = (waitEmits "cloning_repo" env.poll).1 := by
            simp
          rw [hfmap]
          refine List.chain'_cons.mpr ⟨by simp [stepRank], ?_⟩
          refine List.chain'_cons.mpr ⟨by simp [stepRank], ?_⟩
          have hCE : (("cloning_repo" :: (waitEmits "cloning_repo" env.poll).1)
              ++ ["error"]).Chain' (fun a b => stepRank a ≤ stepRank b) := by
            rw [List.chain'_append]
            refine ⟨hch, List.chain'_singleton _, ?_⟩
            intro x hx y hy
            have hxmem := List.mem_of_mem_getLast? hx
            have hy' : y = "error" := by
              have h := hy
              simp only [List.head?_cons, Option.mem_def, Option.some.injEq] at h
              exact h.symm
            subst hy'
            have hxb : stepRank x ≤ 4 := by
              rcases List.mem_cons.mp hxmem with rfl | hxm
              · rw [stepRank_cloning]
                omega
              · exact (hbounds x hxm).2
            have hr6 : stepRank "error" = 6 := by decide
            omega
          rw [List.cons_append] at hCE
          simpa using hCE

/-- C2 witness: a full warming run whose poll sees the gates pass in
order — no runtime, runtime without controller, a poll with no session
visible, agent loading, agent ready — records a monotone step sequence. -/
theorem claim_C2_warming_step_monotone_witness :
    ObsMonotone envSteady.poll ∧ StepsMonotone (warmSteps envSteady) := by
  have hobs : ObsMonotone envSteady.poll := by
    rw [ObsMonotone]
    simp [envSteady, List.filterMap_cons, obsLevel, List.chain'_cons]
  exact ⟨hobs, claim_C2_warming_step_monotone envSteady hobs⟩

end AgentRepo
